import Mathlib

/-!
Verification of the simulation-and-event core of `rocket_tool.py`
(repository Bean-Pringles/Rocket-sim).

The embedding below translates, line by line, the functions
`interp_thrust`, `check_conditions`, `run_events` and `simulate_flight`
of `src/rocket_tool.py` into Lean, with Python floats modelled as exact
rationals:

* a thrust curve is a `List (ℚ × ℚ)` of (time, thrust) control points;
* an event dict `{"time": ..., "type": ..., "condition": ..., "_triggered": ...}`
  becomes the structure `Event` (`_triggered` defaults to `False` in the
  source via `ev.get("_triggered", False)`, so it is an explicit Bool field);
* the per-step `state` dict becomes the structure `FState`;
* Python's `ZeroDivisionError` (possible in `interp_thrust` when two
  consecutive control points share a time, and in the acceleration update
  when the effective mass is zero) is modelled by `Option`/an error result:
  `none` (or `RunResult.err`) means the Python code raises;
* the `while altitude >= 0` loop of `simulate_flight` is modelled by the
  fuel-indexed `simLoop`; `simulate_flight` supplies fuel 6001, and the
  development proves that this fuel is never exhausted (the loop always
  ends by the `t > 300` break, by the altitude test, or by an error), so
  the fuel is an encoding artifact, not a semantic bound;
* `math.pi` is the exact rational value of the IEEE-754 double
  `3.141592653589793115997963...` used by Python;
* `data.append(x)` is modelled by accumulating samples in reverse and
  reversing at the end (the resulting list is identical);
* the `print` of each triggered event in the loop is modelled by the
  side-channel `log` of (time, event type) pairs;
* `events = config.events.copy()` in the source is a *shallow* copy: the
  list is fresh but the event dicts are shared with the caller, so the
  `_triggered` mutation performed by `run_events` is visible to the caller
  after the run.  The model therefore returns the final event list in
  `RunResult.ok`: it is the value of the caller's `config.events` (same
  dicts, mutated in place) once the run finishes.
-/

namespace RocketSim

/-- Constant `GRAVITY = 9.81` from the source. -/
def GRAVITY : ℚ := 9.81

/-- Constant `AIR_DENSITY = 1.225` from the source. -/
def AIR_DENSITY : ℚ := 1.225

/-- Exact rational value of the IEEE-754 double `math.pi`. -/
def mathPi : ℚ := 884279719003555 / 281474976710656

/-- The per-step state dict built in the loop of `simulate_flight`
(`{"time": t, "altitude": altitude, "velocity": velocity, "acceleration": accel}`);
the recorded samples have exactly the same shape. -/
structure FState where
  time : ℚ
  altitude : ℚ
  velocity : ℚ
  acceleration : ℚ
deriving DecidableEq, Repr

/-- One scripted event dict.  `triggered` models the `_triggered` key,
read in the source with `ev.get("_triggered", False)`. -/
structure Event where
  time : ℚ
  type : String
  condition : List (String × ℚ)
  triggered : Bool
deriving DecidableEq, Repr

/-- Function `check_conditions(conditions, state)` of the source: returns `False`
as soon as one listed constraint is violated, `True` otherwise (also for
the empty mapping).  Keys other than the four known ones fall through to
the next iteration, i.e. are ignored. -/
def check_conditions : List (String × ℚ) → FState → Bool
  | [], _ => true
  | (k, v) :: rest, st =>
    if k = "altitude_gt" ∧ st.altitude ≤ v then false
    else if k = "altitude_lt" ∧ st.altitude ≥ v then false
    else if k = "time_gt" ∧ st.time ≤ v then false
    else if k = "time_lt" ∧ st.time ≥ v then false
    else check_conditions rest st

/-- Function `run_events(events, state)` of the source.  The Python function
returns the list of newly triggered events and mutates each of them by
setting `_triggered = True`; the model returns the pair
(triggered events, updated event list).  Since Python appends the dict
and then mutates it in place, the returned triggered events carry the
updated flag. -/
def run_events : List Event → FState → List Event × List Event
  | [], _ => ([], [])
  | ev :: rest, st =>
    let res := run_events rest st
    if ev.triggered = false ∧ ev.time ≤ st.time ∧ check_conditions ev.condition st = true then
      ({ ev with triggered := true } :: res.1, { ev with triggered := true } :: res.2)
    else
      (res.1, ev :: res.2)

/-- Result of the scan `for i in range(len(thrust_curve)-1)` inside
`interp_thrust`: the loop either returns a value, raises
`ZeroDivisionError` (consecutive points with equal times containing `t`),
or finishes without returning. -/
inductive ScanRes where
  | zeroDiv
  | found (v : ℚ)
  | noHit
deriving DecidableEq, Repr

/-- The scan over consecutive control-point pairs inside `interp_thrust`. -/
def scanSegs : List (ℚ × ℚ) → ℚ → ScanRes
  | p0 :: p1 :: rest, t =>
    if p0.1 ≤ t ∧ t ≤ p1.1 then
      if p1.1 - p0.1 = 0 then ScanRes.zeroDiv
      else ScanRes.found (p0.2 + (p1.2 - p0.2) * (t - p0.1) / (p1.1 - p0.1))
    else scanSegs (p1 :: rest) t
  | _, _ => ScanRes.noHit

/-- Function `interp_thrust(thrust_curve, t)` of the source.  `none` models the
`ZeroDivisionError` raised on a degenerate segment; otherwise `some`
carries the returned thrust. -/
def interp_thrust (thrust_curve : List (ℚ × ℚ)) (t : ℚ) : Option ℚ :=
  if thrust_curve.length < 2 then some 0
  else
    match scanSegs thrust_curve t with
    | ScanRes.zeroDiv => none
    | ScanRes.found v => some v
    | ScanRes.noHit =>
      if t > (thrust_curve.getLastD (0, 0)).1 then some 0
      else some (thrust_curve.headI).2

/-- The fields of `MissionConfig` read by `simulate_flight`.
`motor_mass` models `config.motor_params.get("mass", 0)` and
`thrust_curve` models `config.motor_params.get("thrust_curve", [])`. -/
structure MissionConfig where
  rocket_mass : ℚ
  rocket_diameter : ℚ
  drag_coefficient : ℚ
  motor_mass : ℚ
  thrust_curve : List (ℚ × ℚ)
  payload_mass : ℚ
  events : List Event
deriving DecidableEq, Repr

/-- Effective mass `config.rocket_mass + config.motor_params.get("mass",0) + config.payload_mass`. -/
def effMass (cfg : MissionConfig) : ℚ :=
  cfg.rocket_mass + cfg.motor_mass + cfg.payload_mass

/-- Frontal area `math.pi * radius**2` with `radius = config.rocket_diameter / 2`. -/
def areaOf (cfg : MissionConfig) : ℚ :=
  mathPi * (cfg.rocket_diameter / 2) ^ 2

/-- Drag force `0.5 * AIR_DENSITY * velocity**2 * drag_coeff * area * (1 if velocity > 0 else -1)`. -/
def dragOf (cfg : MissionConfig) (velocity : ℚ) : ℚ :=
  0.5 * AIR_DENSITY * velocity ^ 2 * cfg.drag_coefficient * areaOf cfg *
    (if velocity > 0 then 1 else -1)

/-- Loop-carried state of `simulate_flight`: the scalars `t`, `velocity`,
`altitude`, the last computed `accel`, the (mutated-in-place) event list,
and the log of printed `(time, event type)` pairs. -/
structure Core where
  t : ℚ
  velocity : ℚ
  altitude : ℚ
  accel : ℚ
  events : List Event
  log : List (ℚ × String)
deriving DecidableEq, Repr

/-- The sample dict appended to `data` at the end of a step. -/
def sampleOf (c : Core) : FState :=
  ⟨c.t, c.altitude, c.velocity, c.accel⟩

/-- Continuation of one loop body once the thrust lookup succeeded and
the effective mass is known non-zero: the force/kinematics updates of
lines 147-152 of the source, the ground clamp, the event evaluation, and
the event `print` (modelled by extending `log`). -/
def stepVal (cfg : MissionConfig) (c : Core) (thrust : ℚ) : Core :=
  let drag := dragOf cfg c.velocity
  let accel := (thrust - drag - effMass cfg * GRAVITY) / effMass cfg
  let velocity := c.velocity + accel * (0.05 : ℚ)
  let altitude0 := c.altitude + velocity * (0.05 : ℚ)
  let altitude := if altitude0 < 0 then 0 else altitude0
  let t := c.t + (0.05 : ℚ)
  let st : FState := ⟨t, altitude, velocity, accel⟩
  let res := run_events c.events st
  ⟨t, velocity, altitude, accel, res.2,
    c.log ++ res.1.map (fun ev => (t, ev.type))⟩

/-- One iteration of the `while altitude >= 0` body, up to but not
including the `data.append` and the `t > 300` break test.  `none` models a
`ZeroDivisionError`, raised either by `interp_thrust` or by the division
`/ mass` when the effective mass is zero. -/
def stepCore (cfg : MissionConfig) (c : Core) : Option Core :=
  match interp_thrust cfg.thrust_curve c.t with
  | none => none
  | some thrust =>
    if effMass cfg = 0 then none
    else some (stepVal cfg c thrust)

/-- Outcome of a run: `ok data log events` models a normal return of the
sample list (with the printed event log and the caller-visible final
event list), `err` models an uncaught `ZeroDivisionError`, and `fuelOut`
is the fuel-exhaustion artifact of the encoding (proved unreachable from
the actual entry point). -/
inductive RunResult where
  | ok (data : List FState) (log : List (ℚ × String)) (events : List Event)
  | err
  | fuelOut
deriving DecidableEq, Repr

/-- Initial loop state: `t = 0.0`, `velocity = 0.0`, `altitude = 0.0`,
events as supplied by the config (shallow-copied list, shared dicts). -/
def initCore (cfg : MissionConfig) : Core :=
  ⟨0, 0, 0, 0, cfg.events, []⟩

/-- The `while altitude >= 0` loop of `simulate_flight`, fuel-indexed.
Each unfolding is one Python iteration: test the loop condition, run the
body, append the sample, and break when `t > 300`. -/
def simLoop (cfg : MissionConfig) : Nat → Core → List FState → RunResult
  | 0, _, _ => RunResult.fuelOut
  | fuel + 1, c, dataRev =>
    if 0 ≤ c.altitude then
      match stepCore cfg c with
      | none => RunResult.err
      | some c2 =>
        if c2.t > 300 then RunResult.ok (sampleOf c2 :: dataRev).reverse c2.log c2.events
        else simLoop cfg fuel c2 (sampleOf c2 :: dataRev)
    else RunResult.ok dataRev.reverse c.log c.events

/-- Function `simulate_flight(config)` of the source.  Fuel 6001 is exactly the
number of iterations needed to reach the `t > 300` break from `t = 0`. -/
def simulate_flight (cfg : MissionConfig) : RunResult :=
  simLoop cfg 6001 (initCore cfg) []

/-- The loop state after `n` error-free iterations of the body. -/
def iterState (cfg : MissionConfig) : Nat → Option Core
  | 0 => some (initCore cfg)
  | n + 1 => (iterState cfg n).bind (stepCore cfg)

/-- The reversed list of the first `n` recorded samples (when no error
occurred in the first `n` iterations). -/
def samplesRev (cfg : MissionConfig) : Nat → Option (List FState)
  | 0 => some []
  | n + 1 =>
    match iterState cfg (n + 1), samplesRev cfg n with
    | some c, some l => some (sampleOf c :: l)
    | _, _ => none

/-- Boolean test that consecutive control-point times strictly increase. -/
def timesIncrB : List (ℚ × ℚ) → Bool
  | [] => true
  | [_] => true
  | p0 :: p1 :: rest => decide (p0.1 < p1.1) && timesIncrB (p1 :: rest)

/-! ### Lemmas about the thrust-curve scan -/

theorem timesIncrB_cons {p q : ℚ × ℚ} {l : List (ℚ × ℚ)}
    (h : timesIncrB (p :: q :: l) = true) : p.1 < q.1 ∧ timesIncrB (q :: l) = true := by
  simpa [timesIncrB] using h

theorem timesIncrB_lt_of_between :
    ∀ (l : List (ℚ × ℚ)) (a p : ℚ × ℚ) (rest : List (ℚ × ℚ)),
      timesIncrB (a :: (l ++ p :: rest)) = true → a.1 < p.1 := by
  intro l
  induction l with
  | nil =>
    intro a p rest h
    exact (timesIncrB_cons h).1
  | cons b l ih =>
    intro a p rest h
    have h1 := timesIncrB_cons (p := a) (q := b) (l := l ++ p :: rest) (by simpa using h)
    exact lt_trans h1.1 (ih b p rest h1.2)

theorem scanSegs_ne_zeroDiv :
    ∀ (curve : List (ℚ × ℚ)) (t : ℚ), timesIncrB curve = true →
      scanSegs curve t ≠ ScanRes.zeroDiv := by
  intro curve
  induction curve with
  | nil => intro t _; simp [scanSegs]
  | cons p rest ih =>
    intro t h
    cases rest with
    | nil => simp [scanSegs]
    | cons q r =>
      obtain ⟨hpq, hr⟩ := timesIncrB_cons h
      by_cases hc : p.1 ≤ t ∧ t ≤ q.1
      · have hne : q.1 - p.1 ≠ 0 := sub_ne_zero.mpr (ne_of_gt hpq)
        simp [scanSegs, hc, hne]
      · simpa [scanSegs, hc] using ih t hr

theorem interp_thrust_ne_none {curve : List (ℚ × ℚ)} (h : timesIncrB curve = true) (t : ℚ) :
    interp_thrust curve t ≠ none := by
  unfold interp_thrust
  by_cases hl : curve.length < 2
  · simp [hl]
  · rcases hs : scanSegs curve t with _ | v
    · exact absurd hs (scanSegs_ne_zeroDiv curve t h)
    · simp [hl, hs]
    · simp only [hl, if_false, hs]
      split <;> simp

theorem interp_thrust_exists {curve : List (ℚ × ℚ)} (h : timesIncrB curve = true) (t : ℚ) :
    ∃ v, interp_thrust curve t = some v :=
  Option.ne_none_iff_exists'.mp (interp_thrust_ne_none h t)

theorem scanSegs_seg :
    ∀ (pre : List (ℚ × ℚ)) (p q : ℚ × ℚ) (suf : List (ℚ × ℚ)) (t : ℚ),
      timesIncrB (pre ++ p :: q :: suf) = true → p.1 ≤ t → t ≤ q.1 →
      scanSegs (pre ++ p :: q :: suf) t
        = ScanRes.found (p.2 + (q.2 - p.2) * (t - p.1) / (q.1 - p.1)) := by
  intro pre
  induction pre with
  | nil =>
    intro p q suf t h hpt htq
    obtain ⟨hpq, _⟩ := timesIncrB_cons (by simpa using h)
    have hne : q.1 - p.1 ≠ 0 := sub_ne_zero.mpr (ne_of_gt hpq)
    simp [scanSegs, hpt, htq, hne]
  | cons r pre1 ih =>
    intro p q suf t h hpt htq
    cases pre1 with
    | nil =>
      obtain ⟨hrp, htail⟩ := timesIncrB_cons (p := r) (q := p) (l := q :: suf) (by simpa using h)
      obtain ⟨hpq, _⟩ := timesIncrB_cons htail
      by_cases hc : r.1 ≤ t ∧ t ≤ p.1
      · have ht : t = p.1 := le_antisymm hc.2 hpt
        have hne1 : p.1 - r.1 ≠ 0 := sub_ne_zero.mpr (ne_of_gt hrp)
        have hval : r.2 + (p.2 - r.2) * (t - r.1) / (p.1 - r.1)
            = p.2 + (q.2 - p.2) * (t - p.1) / (q.1 - p.1) := by
          rw [ht]
          rw [sub_self, mul_zero, zero_div, add_zero, mul_div_assoc, div_self hne1,
            mul_one]
          ring
        simp only [List.nil_append, List.cons_append, scanSegs, hc, and_self, if_true,
          hne1, if_neg hne1, if_false]
        rw [hval]
      · have hbase := ih p q suf t (by simpa using htail) hpt htq
        simpa [scanSegs, hc] using hbase
    | cons a pre2 =>
      have h' : timesIncrB (r :: a :: (pre2 ++ p :: q :: suf)) = true := by simpa using h
      obtain ⟨hra, htail⟩ := timesIncrB_cons h'
      have hap : a.1 < p.1 := timesIncrB_lt_of_between pre2 a p (q :: suf) htail
      by_cases hc : r.1 ≤ t ∧ t ≤ a.1
      · exact absurd hpt (not_le.mpr (lt_of_le_of_lt hc.2 hap))
      · have hrec := ih p q suf t (by simpa using htail) hpt htq
        simpa [scanSegs, hc] using hrec

theorem getLastD_incr_ge_head :
    ∀ (l : List (ℚ × ℚ)) (x d : ℚ × ℚ), timesIncrB (x :: l) = true →
      x.1 ≤ ((x :: l).getLastD d).1 := by
  intro l
  induction l with
  | nil => intro x d _; simp [List.getLastD]
  | cons y l ih =>
    intro x d h
    obtain ⟨hxy, hl⟩ := timesIncrB_cons h
    have := ih y x hl
    calc x.1 ≤ y.1 := le_of_lt hxy
      _ ≤ ((y :: l).getLastD x).1 := this
      _ = ((x :: y :: l).getLastD d).1 := by simp [List.getLastD]

theorem scanSegs_noHit_of_gt_last :
    ∀ (curve : List (ℚ × ℚ)) (t : ℚ), timesIncrB curve = true →
      (curve.getLastD (0, 0)).1 < t → scanSegs curve t = ScanRes.noHit := by
  intro curve
  induction curve with
  | nil => intro t _ _; simp [scanSegs]
  | cons p rest ih =>
    intro t h hlast
    cases rest with
    | nil => simp [scanSegs]
    | cons q r =>
      obtain ⟨hpq, hr⟩ := timesIncrB_cons h
      have hlast' : ((q :: r).getLastD (0, 0)).1 < t := by
        simpa [List.getLastD] using hlast
      have hqt : q.1 < t := lt_of_le_of_lt (getLastD_incr_ge_head r q (0, 0) hr) hlast'
      have hc : ¬(p.1 ≤ t ∧ t ≤ q.1) := by
        rintro ⟨-, h2⟩
        exact absurd h2 (not_le.mpr hqt)
      simpa [scanSegs, hc] using ih t hr hlast'

theorem scanSegs_noHit_of_lt_head :
    ∀ (curve : List (ℚ × ℚ)) (t : ℚ), timesIncrB curve = true →
      t < curve.headI.1 → scanSegs curve t = ScanRes.noHit := by
  intro curve
  induction curve with
  | nil => intro t _ _; simp [scanSegs]
  | cons p rest ih =>
    intro t h hhead
    cases rest with
    | nil => simp [scanSegs]
    | cons q r =>
      obtain ⟨hpq, hr⟩ := timesIncrB_cons h
      have hhead' : t < (q :: r).headI.1 := by
        simp only [List.headI] at hhead ⊢
        exact lt_trans hhead hpq
      have hc : ¬(p.1 ≤ t ∧ t ≤ q.1) := by
        rintro ⟨h1, -⟩
        simp only [List.headI] at hhead
        exact absurd h1 (not_le.mpr hhead)
      simpa [scanSegs, hc] using ih t hr hhead'

theorem interp_thrust_seg {pre : List (ℚ × ℚ)} {p q : ℚ × ℚ} {suf : List (ℚ × ℚ)} {t : ℚ}
    (h : timesIncrB (pre ++ p :: q :: suf) = true) (hpt : p.1 ≤ t) (htq : t ≤ q.1) :
    interp_thrust (pre ++ p :: q :: suf) t
      = some (p.2 + (q.2 - p.2) * (t - p.1) / (q.1 - p.1)) := by
  have hlen : ¬(pre ++ p :: q :: suf).length < 2 := by
    simp only [List.length_append, List.length_cons, not_lt]
    omega
  rw [interp_thrust, if_neg hlen, scanSegs_seg pre p q suf t h hpt htq]

theorem interp_thrust_after_burnout {curve : List (ℚ × ℚ)} {t : ℚ}
    (h : timesIncrB curve = true) (hlast : (curve.getLastD (0, 0)).1 < t) :
    interp_thrust curve t = some 0 := by
  by_cases hl : curve.length < 2
  · rw [interp_thrust, if_pos hl]
  · rw [interp_thrust, if_neg hl, scanSegs_noHit_of_gt_last curve t h hlast, if_pos hlast]

theorem interp_thrust_before_domain {curve : List (ℚ × ℚ)} {t : ℚ}
    (h : timesIncrB curve = true) (hlen : 2 ≤ curve.length) (hhead : t < curve.headI.1) :
    interp_thrust curve t = some curve.headI.2 := by
  have hl : ¬curve.length < 2 := not_lt.mpr hlen
  have hnotafter : ¬(curve.getLastD (0, 0)).1 < t := by
    rcases curve with _ | ⟨x, rest⟩
    · simp at hlen
    · have := getLastD_incr_ge_head rest x (0, 0) h
      simp only [List.headI] at hhead
      exact not_lt.mpr (le_of_lt (lt_of_lt_of_le hhead this))
  rw [interp_thrust, if_neg hl, scanSegs_noHit_of_lt_head curve t h hhead, if_neg hnotafter]

/-! ### Lemmas about the event engine -/

/-- Per-key pass predicate of one condition entry, read off the four
`if` tests of `check_conditions`: an entry passes iff its key is not a
recognized key whose constraint is violated.  Unrecognized keys always
pass (they are ignored). -/
def condPass (k : String) (v : ℚ) (st : FState) : Bool :=
  if k = "altitude_gt" then decide (v < st.altitude)
  else if k = "altitude_lt" then decide (st.altitude < v)
  else if k = "time_gt" then decide (v < st.time)
  else if k = "time_lt" then decide (st.time < v)
  else true

/-- Firing predicate of one event in one call of `run_events`: not yet
triggered, fire time reached, and all condition entries pass. -/
def firesB (ev : Event) (st : FState) : Bool :=
  !ev.triggered && decide (ev.time ≤ st.time) && check_conditions ev.condition st

theorem check_conditions_all (st : FState) :
    ∀ conds : List (String × ℚ),
      check_conditions conds st = conds.all (fun p => condPass p.1 p.2 st) := by
  intro conds
  induction conds with
  | nil => simp [check_conditions]
  | cons kv rest ih =>
    obtain ⟨k, v⟩ := kv
    by_cases h1 : k = "altitude_gt"
    · subst h1
      by_cases hv : st.altitude ≤ v
      · simp [check_conditions, condPass, hv, not_lt.mpr hv]
      · simp [check_conditions, condPass, hv, not_le.mp hv, ih]
    · by_cases h2 : k = "altitude_lt"
      · subst h2
        by_cases hv : st.altitude ≥ v
        · simp [check_conditions, condPass, hv, not_lt.mpr hv]
        · simp [check_conditions, condPass, hv, not_le.mp hv, ih]
      · by_cases h3 : k = "time_gt"
        · subst h3
          by_cases hv : st.time ≤ v
          · simp [check_conditions, condPass, h2, hv, not_lt.mpr hv]
          · simp [check_conditions, condPass, h2, hv, not_le.mp hv, ih]
        · by_cases h4 : k = "time_lt"
          · subst h4
            by_cases hv : st.time ≥ v
            · simp [check_conditions, condPass, h2, h3, hv, not_lt.mpr hv]
            · simp [check_conditions, condPass, h2, h3, hv, not_le.mp hv, ih]
          · simp [check_conditions, condPass, h1, h2, h3, h4, ih]

theorem run_events_cond_iff (ev : Event) (st : FState) :
    (ev.triggered = false ∧ ev.time ≤ st.time ∧ check_conditions ev.condition st = true)
      ↔ firesB ev st = true := by
  simp [firesB, Bool.and_eq_true, Bool.not_eq_true']
  tauto

theorem run_events_fst (st : FState) :
    ∀ evs : List Event,
      (run_events evs st).1
        = (evs.filter (fun e => firesB e st)).map (fun e => { e with triggered := true }) := by
  intro evs
  induction evs with
  | nil => simp [run_events]
  | cons ev rest ih =>
    by_cases h : ev.triggered = false ∧ ev.time ≤ st.time ∧
        check_conditions ev.condition st = true
    · have hf : firesB ev st = true := (run_events_cond_iff ev st).mp h
      simp [run_events, h, List.filter_cons, hf, ih]
    · have hf : ¬firesB ev st = true := fun hb => h ((run_events_cond_iff ev st).mpr hb)
      simp [run_events, h, List.filter_cons, hf, ih]

theorem run_events_snd (st : FState) :
    ∀ evs : List Event,
      (run_events evs st).2
        = evs.map (fun e => if firesB e st then { e with triggered := true } else e) := by
  intro evs
  induction evs with
  | nil => simp [run_events]
  | cons ev rest ih =>
    by_cases h : ev.triggered = false ∧ ev.time ≤ st.time ∧
        check_conditions ev.condition st = true
    · have hf : firesB ev st = true := (run_events_cond_iff ev st).mp h
      simp [run_events, h, hf, ih]
    · have hf : ¬firesB ev st = true := fun hb => h ((run_events_cond_iff ev st).mpr hb)
      simp [run_events, h, hf, ih]

theorem run_events_idem (st : FState) :
    ∀ evs : List Event,
      (run_events (run_events evs st).2 st).1 = []
        ∧ (run_events (run_events evs st).2 st).2 = (run_events evs st).2 := by
  intro evs
  induction evs with
  | nil => simp [run_events]
  | cons ev rest ih =>
    by_cases h : ev.triggered = false ∧ ev.time ≤ st.time ∧
        check_conditions ev.condition st = true
    · -- the event fires and is marked; a marked event can never fire again
      simp only [run_events, h, if_true]
      have hm : ¬(({ ev with triggered := true } : Event).triggered = false ∧
          ({ ev with triggered := true } : Event).time ≤ st.time ∧
          check_conditions ({ ev with triggered := true } : Event).condition st = true) := by
        simp
      simp [run_events, hm, ih]
    · -- the event does not fire now, so it does not fire on the repeat call either
      simp only [run_events, h, if_false]
      simp [run_events, h, ih]

theorem run_events_all_triggered (st : FState) :
    ∀ evs : List Event, (∀ e ∈ evs, e.triggered = true) →
      run_events evs st = ([], evs) := by
  intro evs
  induction evs with
  | nil => intro _; simp [run_events]
  | cons ev rest ih =>
    intro h
    have hev : ev.triggered = true := h ev (by simp)
    have hrest := ih (fun e he => h e (by simp [he]))
    have hc : ¬(ev.triggered = false ∧ ev.time ≤ st.time ∧
        check_conditions ev.condition st = true) := by
      simp [hev]
    simp [run_events, hc, hrest]

theorem run_events_snd_all_triggered (st : FState) :
    ∀ evs : List Event, (∀ e ∈ (run_events evs st).2, e.triggered = true)
      ↔ (∀ e ∈ evs, firesB e st = true ∨ e.triggered = true) := by
  intro evs
  rw [run_events_snd]
  constructor
  · intro h e he
    by_cases hf : firesB e st = true
    · exact Or.inl hf
    · refine Or.inr ?_
      have := h e (by
        refine List.mem_map.mpr ⟨e, he, ?_⟩
        simp [hf])
      simpa using this
  · intro h e he
    obtain ⟨x, hx, hxe⟩ := List.mem_map.mp he
    rcases h x hx with hf | ht
    · rw [← hxe]; simp [hf]
    · rw [← hxe]
      by_cases hf : firesB x st = true <;> simp [hf, ht]

/-! ### Lemmas about one integration step -/

theorem stepCore_eq {cfg : MissionConfig} {c : Core} {th : ℚ}
    (hth : interp_thrust cfg.thrust_curve c.t = some th) (hm : effMass cfg ≠ 0) :
    stepCore cfg c = some (stepVal cfg c th) := by
  simp [stepCore, hth, hm]

theorem stepCore_elim {cfg : MissionConfig} {c c2 : Core} (h : stepCore cfg c = some c2) :
    ∃ th, interp_thrust cfg.thrust_curve c.t = some th ∧ effMass cfg ≠ 0 ∧
      c2 = stepVal cfg c th := by
  unfold stepCore at h
  rcases hth : interp_thrust cfg.thrust_curve c.t with _ | th
  · rw [hth] at h; simp at h
  · rw [hth] at h
    by_cases hm : effMass cfg = 0
    · simp [hm] at h
    · simp only [hm, if_false] at h
      simp only [Option.some.injEq] at h
      exact ⟨th, rfl, hm, h.symm⟩

theorem stepCore_none_of_mass {cfg : MissionConfig} (hm : effMass cfg = 0) (c : Core) :
    stepCore cfg c = none := by
  rcases hth : interp_thrust cfg.thrust_curve c.t with _ | th <;> simp [stepCore, hth, hm]

theorem stepVal_t (cfg : MissionConfig) (c : Core) (th : ℚ) :
    (stepVal cfg c th).t = c.t + 0.05 := rfl

theorem stepVal_alt_nonneg (cfg : MissionConfig) (c : Core) (th : ℚ) :
    0 ≤ (stepVal cfg c th).altitude := by
  show (0 : ℚ) ≤ (if c.altitude + _ * (0.05 : ℚ) < 0 then 0 else _)
  split
  · exact le_refl 0
  · exact le_of_not_lt (by assumption)

theorem stepVal_accel {cfg : MissionConfig} {c : Core} (h0 : c.velocity = 0) (th : ℚ) :
    (stepVal cfg c th).accel = (th - effMass cfg * GRAVITY) / effMass cfg := by
  have hdrag : dragOf cfg c.velocity = 0 := by
    rw [h0]
    simp [dragOf]
  show (th - dragOf cfg c.velocity - effMass cfg * GRAVITY) / effMass cfg = _
  rw [hdrag, sub_zero]

theorem stepVal_frozen {cfg : MissionConfig} {c : Core}
    (hall : ∀ e ∈ c.events, e.triggered = true) (th : ℚ) :
    (stepVal cfg c th).events = c.events ∧ (stepVal cfg c th).log = c.log := by
  simp only [stepVal]
  rw [run_events_all_triggered _ c.events hall]
  simp

/-! ### Lemmas about the iterated loop state -/

theorem iterState_succ_elim {cfg : MissionConfig} {n : ℕ} {c2 : Core}
    (h : iterState cfg (n + 1) = some c2) :
    ∃ c, iterState cfg n = some c ∧ stepCore cfg c = some c2 := by
  rw [iterState] at h
  rcases hn : iterState cfg n with _ | c
  · rw [hn] at h; simp at h
  · rw [hn] at h
    exact ⟨c, rfl, h⟩

theorem iterState_some_of_le {cfg : MissionConfig} :
    ∀ (k : ℕ) (c : Core), iterState cfg k = some c →
      ∀ m ≤ k, ∃ c', iterState cfg m = some c' := by
  intro k
  induction k with
  | zero =>
    intro c h m hm
    interval_cases m
    exact ⟨c, h⟩
  | succ k ih =>
    intro c h m hm
    rcases Nat.lt_or_ge m (k + 1) with hlt | hge
    · obtain ⟨c', hc', -⟩ := iterState_succ_elim h
      exact ih c' hc' m (by omega)
    · have : m = k + 1 := by omega
      exact this ▸ ⟨c, h⟩

theorem iterState_t {cfg : MissionConfig} :
    ∀ (n : ℕ) (c : Core), iterState cfg n = some c → c.t = (n : ℚ) * 0.05 := by
  intro n
  induction n with
  | zero => intro c h; cases h; simp [initCore]
  | succ n ih =>
    intro c h
    obtain ⟨c', hc', hstep⟩ := iterState_succ_elim h
    obtain ⟨th, -, -, hval⟩ := stepCore_elim hstep
    rw [hval, stepVal_t, ih c' hc']
    push_cast
    ring

theorem iterState_alt_nonneg {cfg : MissionConfig} :
    ∀ (n : ℕ) (c : Core), iterState cfg n = some c → 0 ≤ c.altitude := by
  intro n
  induction n with
  | zero => intro c h; cases h; simp [initCore]
  | succ n _ =>
    intro c h
    obtain ⟨c', -, hstep⟩ := iterState_succ_elim h
    obtain ⟨th, -, -, hval⟩ := stepCore_elim hstep
    rw [hval]
    exact stepVal_alt_nonneg cfg c' th

theorem iterState_good {cfg : MissionConfig} (hm : effMass cfg ≠ 0)
    (hcv : timesIncrB cfg.thrust_curve = true) :
    ∀ n : ℕ, ∃ c, iterState cfg n = some c := by
  intro n
  induction n with
  | zero => exact ⟨initCore cfg, rfl⟩
  | succ n ih =>
    obtain ⟨c, hc⟩ := ih
    obtain ⟨th, hth⟩ := interp_thrust_exists hcv c.t
    refine ⟨stepVal cfg c th, ?_⟩
    rw [iterState, hc]
    exact stepCore_eq hth hm

theorem iterState_frozen {cfg : MissionConfig}
    (hall : ∀ e ∈ cfg.events, e.triggered = true) :
    ∀ (n : ℕ) (c : Core), iterState cfg n = some c →
      c.events = cfg.events ∧ c.log = [] := by
  intro n
  induction n with
  | zero => intro c h; cases h; exact ⟨rfl, rfl⟩
  | succ n ih =>
    intro c h
    obtain ⟨c', hc', hstep⟩ := iterState_succ_elim h
    obtain ⟨hev, hlog⟩ := ih c' hc'
    obtain ⟨th, -, -, hval⟩ := stepCore_elim hstep
    have hall' : ∀ e ∈ c'.events, e.triggered = true := by
      rw [hev]; exact hall
    obtain ⟨h1, h2⟩ := stepVal_frozen hall' th
    exact ⟨hval ▸ h1 ▸ hev, hval ▸ h2 ▸ hlog⟩

theorem iterState_frozen_from_one {cfg : MissionConfig} {c1 : Core}
    (h1 : iterState cfg 1 = some c1)
    (hall : ∀ e ∈ c1.events, e.triggered = true) :
    ∀ (n : ℕ) (c : Core), iterState cfg (n + 1) = some c →
      c.events = c1.events ∧ c.log = c1.log := by
  intro n
  induction n with
  | zero =>
    intro c h
    rw [h1] at h
    cases h
    exact ⟨rfl, rfl⟩
  | succ n ih =>
    intro c h
    obtain ⟨c', hc', hstep⟩ := iterState_succ_elim h
    obtain ⟨hev, hlog⟩ := ih c' hc'
    obtain ⟨th, -, -, hval⟩ := stepCore_elim hstep
    have hall' : ∀ e ∈ c'.events, e.triggered = true := by
      rw [hev]; exact hall
    obtain ⟨ha, hb⟩ := stepVal_frozen hall' th
    exact ⟨hval ▸ ha ▸ hev, hval ▸ hb ▸ hlog⟩

/-! ### Lemmas about the recorded samples -/

theorem samplesRev_some_of_iter {cfg : MissionConfig} :
    ∀ (n : ℕ) (c : Core), iterState cfg n = some c →
      ∃ l, samplesRev cfg n = some l := by
  intro n
  induction n with
  | zero => intro c _; exact ⟨[], rfl⟩
  | succ n ih =>
    intro c h
    obtain ⟨c', hc', -⟩ := iterState_succ_elim h
    obtain ⟨l, hl⟩ := ih c' hc'
    refine ⟨sampleOf c :: l, ?_⟩
    rw [samplesRev, h, hl]

theorem samplesRev_length {cfg : MissionConfig} :
    ∀ (n : ℕ) (l : List FState), samplesRev cfg n = some l → l.length = n := by
  intro n
  induction n with
  | zero => intro l h; cases h; rfl
  | succ n ih =>
    intro l h
    rw [samplesRev] at h
    rcases hc : iterState cfg (n + 1) with _ | c <;> rw [hc] at h
    · simp at h
    · rcases hl : samplesRev cfg n with _ | l' <;> rw [hl] at h
      · simp at h
      · cases h
        simp [ih l' hl]

theorem samplesRev_get {cfg : MissionConfig} :
    ∀ (n : ℕ) (l : List FState), samplesRev cfg n = some l →
      ∀ i : ℕ, i < n →
        l.reverse.get? i = (iterState cfg (i + 1)).map sampleOf := by
  intro n
  induction n with
  | zero => intro l _ i hi; omega
  | succ n ih =>
    intro l h i hi
    rw [samplesRev] at h
    rcases hc : iterState cfg (n + 1) with _ | c <;> rw [hc] at h
    · simp at h
    · rcases hl : samplesRev cfg n with _ | l' <;> rw [hl] at h
      · simp at h
      · cases h
        have hlen : l'.reverse.length = n := by
          rw [List.length_reverse]
          exact samplesRev_length n l' hl
        rcases Nat.lt_or_ge i n with hin | hin
        · rw [List.reverse_cons, List.get?_append (by omega : i < l'.reverse.length)]
          exact ih l' hl i hin
        · have hieq : i = n := by omega
          subst hieq
          have hget : (l'.reverse ++ [sampleOf c]).get? i = some (sampleOf c) := by
            rw [← hlen]
            exact List.get?_concat_length _ _
          rw [List.reverse_cons, hget, hc]
          rfl

/-! ### Termination of the `while` loop: the fuel is never exhausted -/

theorem step_time_gt_iff (n : ℕ) : (300 : ℚ) < ((n : ℚ) + 1) * 0.05 ↔ 6000 < n + 1 := by
  have h : ((n : ℚ) + 1) * 0.05 = ((n : ℚ) + 1) / 20 := by
    rw [show (0.05 : ℚ) = 1 / 20 by norm_num]
    ring
  rw [h, lt_div_iff (by norm_num : (0 : ℚ) < 20)]
  constructor
  · intro hlt
    by_contra hle
    have : (n : ℚ) + 1 ≤ 6000 := by
      have : n + 1 ≤ 6000 := by omega
      exact_mod_cast this
    linarith
  · intro hlt
    have : (6000 : ℚ) < (n : ℚ) + 1 := by exact_mod_cast hlt
    linarith

theorem simLoop_reaches_ok (cfg : MissionConfig) :
    ∀ (fuel n : ℕ) (c : Core) (rev : List FState),
      iterState cfg n = some c → samplesRev cfg n = some rev →
      n ≤ 6000 → 6000 - n < fuel →
      ∀ (c6 : Core) (rev6 : List FState),
        iterState cfg 6001 = some c6 → samplesRev cfg 6001 = some rev6 →
        simLoop cfg fuel c rev = RunResult.ok rev6.reverse c6.log c6.events := by
  intro fuel
  induction fuel with
  | zero =>
    intro n c rev _ _ hn hfuel
    omega
  | succ f ih =>
    intro n c rev hc hrev hn hfuel c6 rev6 hc6 hrev6
    have halt : 0 ≤ c.altitude := iterState_alt_nonneg n c hc
    obtain ⟨c2, hc2⟩ := iterState_some_of_le 6001 c6 hc6 (n + 1) (by omega)
    have hstep : stepCore cfg c = some c2 := by
      obtain ⟨c'', hc'', hs⟩ := iterState_succ_elim hc2
      rw [hc] at hc''
      cases hc''
      exact hs
    have ht2 : c2.t = ((n : ℚ) + 1) * 0.05 := by
      have := iterState_t (n + 1) c2 hc2
      rw [this]
      push_cast
      ring
    have hrev2 : samplesRev cfg (n + 1) = some (sampleOf c2 :: rev) := by
      rw [samplesRev, hc2, hrev]
    rw [simLoop, if_pos halt]
    simp only [hstep]
    by_cases h6 : n = 6000
    · subst h6
      have hgt : c2.t > 300 := by
        rw [ht2, gt_iff_lt, step_time_gt_iff]
        omega
      rw [if_pos hgt]
      have he : iterState cfg 6001 = some c2 := hc2
      rw [he] at hc6
      cases hc6
      rw [hrev2] at hrev6
      cases hrev6
      rfl
    · have hngt : ¬c2.t > 300 := by
        rw [ht2, gt_iff_lt, step_time_gt_iff]
        omega
      rw [if_neg hngt]
      exact ih (n + 1) c2 (sampleOf c2 :: rev) hc2 hrev2 (by omega) (by omega) c6 rev6 hc6 hrev6

theorem simLoop_reaches_err (cfg : MissionConfig) :
    ∀ (fuel n : ℕ) (c : Core) (rev : List FState),
      iterState cfg n = some c → n ≤ 6000 → 6000 - n < fuel →
      iterState cfg 6001 = none →
      simLoop cfg fuel c rev = RunResult.err := by
  intro fuel
  induction fuel with
  | zero =>
    intro n c rev _ hn hfuel
    omega
  | succ f ih =>
    intro n c rev hc hn hfuel hnone
    have halt : 0 ≤ c.altitude := iterState_alt_nonneg n c hc
    rcases hstep : stepCore cfg c with _ | c2
    · rw [simLoop, if_pos halt]
      simp only [hstep]
    · have hc2 : iterState cfg (n + 1) = some c2 := by
        rw [iterState, hc]
        exact hstep
      have h6 : n ≠ 6000 := by
        intro h
        subst h
        rw [hc2] at hnone
        cases hnone
      have ht2 : c2.t = ((n : ℚ) + 1) * 0.05 := by
        have := iterState_t (n + 1) c2 hc2
        rw [this]
        push_cast
        ring
      have hngt : ¬c2.t > 300 := by
        rw [ht2, gt_iff_lt, step_time_gt_iff]
        omega
      rw [simLoop, if_pos halt]
      simp only [hstep]
      rw [if_neg hngt]
      exact ih (n + 1) c2 (sampleOf c2 :: rev) hc2 (by omega) (by omega) hnone

theorem simulate_flight_ok_of {cfg : MissionConfig} {c6 : Core} {rev6 : List FState}
    (hc6 : iterState cfg 6001 = some c6) (hrev6 : samplesRev cfg 6001 = some rev6) :
    simulate_flight cfg = RunResult.ok rev6.reverse c6.log c6.events := by
  exact simLoop_reaches_ok cfg 6001 0 (initCore cfg) [] rfl rfl (by omega) (by omega)
    c6 rev6 hc6 hrev6

theorem simulate_flight_err_of {cfg : MissionConfig}
    (h : iterState cfg 6001 = none) : simulate_flight cfg = RunResult.err := by
  exact simLoop_reaches_err cfg 6001 0 (initCore cfg) [] rfl (by omega) (by omega) h

theorem simulate_flight_ok_elim {cfg : MissionConfig} {data : List FState}
    {log : List (ℚ × String)} {evs : List Event}
    (h : simulate_flight cfg = RunResult.ok data log evs) :
    ∃ (c6 : Core) (rev6 : List FState),
      iterState cfg 6001 = some c6 ∧ samplesRev cfg 6001 = some rev6 ∧
      data = rev6.reverse ∧ log = c6.log ∧ evs = c6.events := by
  rcases hc6 : iterState cfg 6001 with _ | c6
  · rw [simulate_flight_err_of hc6] at h
    cases h
  · obtain ⟨rev6, hrev6⟩ := samplesRev_some_of_iter 6001 c6 hc6
    rw [simulate_flight_ok_of hc6 hrev6] at h
    injection h with h1 h2 h3
    exact ⟨c6, rev6, rfl, hrev6, h1.symm, h2.symm, h3.symm⟩

theorem run_ok_of_good {cfg : MissionConfig} (hm : effMass cfg ≠ 0)
    (hcv : timesIncrB cfg.thrust_curve = true) :
    ∃ (c6 : Core) (rev6 : List FState),
      iterState cfg 6001 = some c6 ∧ samplesRev cfg 6001 = some rev6 ∧
      simulate_flight cfg = RunResult.ok rev6.reverse c6.log c6.events ∧
      rev6.reverse.length = 6001 := by
  obtain ⟨c6, hc6⟩ := iterState_good hm hcv 6001
  obtain ⟨rev6, hrev6⟩ := samplesRev_some_of_iter 6001 c6 hc6
  refine ⟨c6, rev6, hc6, hrev6, simulate_flight_ok_of hc6 hrev6, ?_⟩
  rw [List.length_reverse]
  exact samplesRev_length 6001 rev6 hrev6

theorem simulate_flight_err_of_mass {cfg : MissionConfig} (hm : effMass cfg = 0) :
    simulate_flight cfg = RunResult.err := by
  apply simulate_flight_err_of
  rw [iterState]
  rcases h : iterState cfg 6000 with _ | c
  · rfl
  · exact stepCore_none_of_mass hm c

theorem simLoop_err_first {cfg : MissionConfig} {c : Core} {rev : List FState} (fuel : ℕ)
    (halt : 0 ≤ c.altitude) (h : stepCore cfg c = none) :
    simLoop cfg (fuel + 1) c rev = RunResult.err := by
  rw [simLoop, if_pos halt]
  simp only [h]

theorem simulate_flight_data_get {cfg : MissionConfig} {data : List FState}
    {log : List (ℚ × String)} {evs : List Event}
    (h : simulate_flight cfg = RunResult.ok data log evs) :
    data.length = 6001 ∧
      ∀ i : ℕ, i < 6001 → data.get? i = (iterState cfg (i + 1)).map sampleOf := by
  obtain ⟨c6, rev6, -, hrev6, hdata, -, -⟩ := simulate_flight_ok_elim h
  subst hdata
  constructor
  · rw [List.length_reverse]
    exact samplesRev_length 6001 rev6 hrev6
  · intro i hi
    exact samplesRev_get 6001 rev6 hrev6 i hi

/-! ### Concrete mission configurations used in the claim analysis -/

/-- A mission whose motor burns only during the very first step: the
rocket leaves the pad at step 1 and is clamped back to the ground at
step 2, exhibiting a post-liftoff landing as early as possible.
(mass 1 kg, diameter 0.05 m, drag coefficient 0, thrust curve
(0 s, 10 N) to (0.05 s, 0 N), no events.) -/
def cfgBurnHop : MissionConfig :=
  ⟨1, 1 / 20, 0, 0, [(0, 10), (1 / 20, 0)], 0, []⟩

/-- An unconditional scripted event with fire time 0, not yet fired. -/
def evDeploy : Event := ⟨0, "deploy", [], false⟩

/-- The same event dict after `run_events` set its `_triggered` key. -/
def evDeployFired : Event := ⟨0, "deploy", [], true⟩

/-- A thrust-less mission carrying the single event `evDeploy`. -/
def cfgOneEvent : MissionConfig := ⟨1, 1 / 20, 0, 0, [], 0, [evDeploy]⟩

/-- The same mission as the caller sees it after one run of
`simulate_flight`: the shallow `events.copy()` shares the event dicts,
so the caller's event now carries `_triggered = True`. -/
def cfgOneEventRerun : MissionConfig := ⟨1, 1 / 20, 0, 0, [], 0, [evDeployFired]⟩

/-- A config with an invalid (negative) rocket diameter. -/
def cfgNegDiameter : MissionConfig := ⟨1, -1, 3 / 4, 0, [], 0, []⟩

/-- A config whose effective mass is zero. -/
def cfgZeroMass : MissionConfig := ⟨0, 1 / 20, 3 / 4, 0, [], 0, []⟩

/-- A config whose thrust curve has two control points at the same time. -/
def cfgDupTimes : MissionConfig := ⟨1, 1 / 20, 3 / 4, 0, [(0, 5), (0, 0)], 0, []⟩

/-- The end-to-end scenario of spec section 8: effective mass 0.5 kg,
diameter 0.05 m, drag coefficient 0.75, 2-point thrust curve
(0 s, 12 N) to (1.6 s, 0 N). -/
def cfgGood : MissionConfig :=
  ⟨1 / 2, 1 / 20, 3 / 4, 0, [(0, 12), (8 / 5, 0)], 0, []⟩

/-! ### The claims -/

/-- C1: the claim states that a run whose altitude becomes positive and
later returns to 0 terminates at the step after the landing, without the
300 s cutoff, with total flight time below 300 s.  The code falsifies
this: line 151 clamps altitude to 0, so the `while altitude >= 0`
condition never fails and every error-free run performs 6001 steps,
ending at t = 300.05 s via the timeout break.  Witnessed here on
`cfgBurnHop`, whose altitude is positive at sample 0 and back to 0 at
sample 1, yet whose run still returns 6001 samples with final time
300.05 s. -/
theorem C1_landing_never_terminates_loop :
    ∃ (data : List FState) (log : List (ℚ × String)) (evs : List Event),
      simulate_flight cfgBurnHop = RunResult.ok data log evs ∧
      (∃ s, data.get? 0 = some s ∧ 0 < s.altitude) ∧
      (∃ s, data.get? 1 = some s ∧ s.altitude = 0) ∧
      data.length = 6001 ∧
      (∃ s, data.get? 6000 = some s ∧ s.time = 300.05 ∧ ¬s.time < 300) := by
  obtain ⟨c6, rev6, hc6, hrev6, hok, -⟩ :=
    @run_ok_of_good cfgBurnHop (by norm_num [effMass, cfgBurnHop])
      (by norm_num [timesIncrB, cfgBurnHop])
  obtain ⟨hlen, hget⟩ := simulate_flight_data_get hok
  have h1 : iterState cfgBurnHop 1
      = some ⟨1 / 20, 19 / 2000, 19 / 40000, 19 / 100, [], []⟩ := by
    norm_num [iterState, stepCore, stepVal, interp_thrust, scanSegs, run_events,
      check_conditions, dragOf, areaOf, effMass, GRAVITY, AIR_DENSITY, mathPi,
      initCore, cfgBurnHop]
  have h2 : iterState cfgBurnHop 2
      = some ⟨1 / 10, -481 / 1000, 0, -981 / 100, [], []⟩ := by
    norm_num [iterState, stepCore, stepVal, interp_thrust, scanSegs, run_events,
      check_conditions, dragOf, areaOf, effMass, GRAVITY, AIR_DENSITY, mathPi,
      initCore, cfgBurnHop]
  refine ⟨rev6.reverse, c6.log, c6.events, hok, ?_, ?_, hlen, ?_⟩
  · have hg := hget 0 (by omega)
    rw [h1] at hg
    exact ⟨_, hg, by norm_num [sampleOf]⟩
  · have hg := hget 1 (by omega)
    rw [h2] at hg
    exact ⟨_, hg, by norm_num [sampleOf]⟩
  · have hg := hget 6000 (by omega)
    rw [hc6] at hg
    have ht : c6.t = ((6001 : ℕ) : ℚ) * 0.05 := iterState_t 6001 c6 hc6
    refine ⟨sampleOf c6, hg, ?_, ?_⟩
    · show c6.t = (300.05 : ℚ)
      rw [ht]; norm_num
    · show ¬c6.t < 300
      rw [ht]; norm_num

/-- C2: the claim states that `simulate_flight` leaves the caller's
event definitions unchanged and that two successive runs produce
identical triggered-event sequences.  The code falsifies this:
`config.events.copy()` is a shallow copy, so the `_triggered = True`
mutation performed by `run_events` is visible to the caller, and a
second run of the same mission (whose event list is now
`[evDeployFired]`) triggers nothing, while the first run triggered the
event at t = 0.05 s. -/
theorem C2_trigger_flags_leak_across_runs :
    (∃ data, simulate_flight cfgOneEvent
        = RunResult.ok data [((1 : ℚ) / 20, "deploy")] [evDeployFired]) ∧
    (∃ data, simulate_flight cfgOneEventRerun = RunResult.ok data [] [evDeployFired]) ∧
    cfgOneEventRerun.events = [evDeployFired] ∧
    cfgOneEvent.events ≠ cfgOneEventRerun.events ∧
    ([((1 : ℚ) / 20, "deploy")] : List (ℚ × String)) ≠ ([] : List (ℚ × String)) := by
  refine ⟨?_, ?_, rfl, ?_, by simp⟩
  · obtain ⟨c6, rev6, hc6, hrev6, hok, -⟩ :=
      @run_ok_of_good cfgOneEvent (by norm_num [effMass, cfgOneEvent])
        (by norm_num [timesIncrB, cfgOneEvent])
    have h1 : iterState cfgOneEvent 1
        = some ⟨1 / 20, -981 / 2000, 0, -981 / 100, [evDeployFired],
            [(1 / 20, "deploy")]⟩ := by
      norm_num [iterState, stepCore, stepVal, interp_thrust, scanSegs, run_events,
        check_conditions, dragOf, areaOf, effMass, GRAVITY, AIR_DENSITY, mathPi,
        initCore, cfgOneEvent, evDeploy, evDeployFired]
    obtain ⟨hev6, hlog6⟩ := iterState_frozen_from_one h1
      (by simp [evDeployFired]) 6000 c6 hc6
    rw [hev6, hlog6] at hok
    exact ⟨rev6.reverse, hok⟩
  · obtain ⟨c6, rev6, hc6, hrev6, hok, -⟩ :=
      @run_ok_of_good cfgOneEventRerun (by norm_num [effMass, cfgOneEventRerun])
        (by norm_num [timesIncrB, cfgOneEventRerun])
    obtain ⟨hev6, hlog6⟩ := @iterState_frozen cfgOneEventRerun
      (by simp [cfgOneEventRerun, evDeployFired]) 6001 c6 hc6
    rw [hev6, hlog6] at hok
    exact ⟨rev6.reverse, hok⟩
  · simp [cfgOneEvent, cfgOneEventRerun, evDeploy, evDeployFired]

/-- C3 counterexample: the claim states that a configuration with
diameter ≤ 0 or effective mass ≤ 0 is rejected before the run starts
with a validation error and that no simulation step executes.  The code
has no validation at all: with a negative diameter the run executes all
6001 steps and returns normally. -/
theorem C3_cex_no_validation :
    cfgNegDiameter.rocket_diameter ≤ 0 ∧
    ∃ (data : List FState) (log : List (ℚ × String)) (evs : List Event),
      simulate_flight cfgNegDiameter = RunResult.ok data log evs ∧ data.length = 6001 := by
  refine ⟨by norm_num [cfgNegDiameter], ?_⟩
  obtain ⟨c6, rev6, -, -, hok, hlen⟩ :=
    @run_ok_of_good cfgNegDiameter (by norm_num [effMass, cfgNegDiameter])
      (by norm_num [timesIncrB, cfgNegDiameter])
  exact ⟨rev6.reverse, c6.log, c6.events, hok, hlen⟩

/-- C3 amended: the core performs no pre-run validation.  A
configuration with diameter ≤ 0 (and non-zero effective mass and a
well-formed thrust curve) runs all 6001 steps and returns normally, and
a configuration with zero effective mass raises a division-by-zero
error at the first step of the loop rather than a pre-run validation
error naming the field. -/
theorem C3_amended_no_validation :
    (∀ cfg : MissionConfig, effMass cfg = 0 → simulate_flight cfg = RunResult.err) ∧
    (∀ cfg : MissionConfig, cfg.rocket_diameter ≤ 0 → effMass cfg ≠ 0 →
      timesIncrB cfg.thrust_curve = true →
      ∃ (data : List FState) (log : List (ℚ × String)) (evs : List Event),
        simulate_flight cfg = RunResult.ok data log evs ∧ data.length = 6001) := by
  constructor
  · intro cfg hm
    exact simulate_flight_err_of_mass hm
  · intro cfg _ hm hcv
    obtain ⟨c6, rev6, -, -, hok, hlen⟩ := run_ok_of_good hm hcv
    exact ⟨rev6.reverse, c6.log, c6.events, hok, hlen⟩

/-- C3 witness: the amended statement instantiated at `cfgZeroMass`
(zero effective mass: run errors at the first step) and at
`cfgNegDiameter` (negative diameter: run completes normally). -/
theorem C3_amended_witness :
    (effMass cfgZeroMass = 0 ∧ simulate_flight cfgZeroMass = RunResult.err) ∧
    (cfgNegDiameter.rocket_diameter ≤ 0 ∧ effMass cfgNegDiameter ≠ 0 ∧
      timesIncrB cfgNegDiameter.thrust_curve = true ∧
      ∃ (data : List FState) (log : List (ℚ × String)) (evs : List Event),
        simulate_flight cfgNegDiameter = RunResult.ok data log evs ∧
        data.length = 6001) := by
  constructor
  · exact ⟨by norm_num [effMass, cfgZeroMass],
      C3_amended_no_validation.1 cfgZeroMass (by norm_num [effMass, cfgZeroMass])⟩
  · exact ⟨by norm_num [cfgNegDiameter], by norm_num [effMass, cfgNegDiameter], rfl,
      C3_amended_no_validation.2 cfgNegDiameter (by norm_num [cfgNegDiameter])
        (by norm_num [effMass, cfgNegDiameter]) rfl⟩

/-- C4 counterexample: the claim states that no error can occur
mid-loop for any input and that thrust curves with duplicate
control-point times degrade to zero thrust.  The code falsifies this: a
curve with two control points at the same time makes `interp_thrust`
raise `ZeroDivisionError` (modelled as `none`), and a run with such a
curve raises at its first step (`RunResult.err`), a third termination
besides landing and timeout. -/
theorem C4_cex_duplicate_time_raises :
    interp_thrust [((0 : ℚ), (5 : ℚ)), (0, 0)] 0 = none ∧
    simulate_flight cfgDupTimes = RunResult.err := by
  constructor
  · norm_num [interp_thrust, scanSegs]
  · have hstep : stepCore cfgDupTimes (initCore cfgDupTimes) = none := by
      norm_num [stepCore, interp_thrust, scanSegs, initCore, cfgDupTimes]
    exact simLoop_err_first 6000 (by norm_num [initCore]) hstep

/-- C4 amended: a thrust curve with fewer than 2 points does degrade to
zero thrust, and for a configuration with non-zero effective mass and
strictly increasing thrust-curve times no mid-loop error occurs (the
run returns normally); but duplicate control-point times raise a
division-by-zero error instead of degrading. -/
theorem C4_amended_error_free_runs :
    (∀ (curve : List (ℚ × ℚ)) (t : ℚ), curve.length < 2 → interp_thrust curve t = some 0) ∧
    (∀ cfg : MissionConfig, effMass cfg ≠ 0 → timesIncrB cfg.thrust_curve = true →
      ∃ (data : List FState) (log : List (ℚ × String)) (evs : List Event),
        simulate_flight cfg = RunResult.ok data log evs) := by
  constructor
  · intro curve t h
    rw [interp_thrust, if_pos h]
  · intro cfg hm hcv
    obtain ⟨c6, rev6, -, -, hok, -⟩ := run_ok_of_good hm hcv
    exact ⟨rev6.reverse, c6.log, c6.events, hok⟩

/-- C4 witness: the amended statement instantiated at a one-point curve
and at the section-8 configuration `cfgGood`. -/
theorem C4_amended_witness :
    (([((0 : ℚ), (5 : ℚ))] : List (ℚ × ℚ)).length < 2 ∧
      interp_thrust [((0 : ℚ), (5 : ℚ))] 3 = some 0) ∧
    (effMass cfgGood ≠ 0 ∧ timesIncrB cfgGood.thrust_curve = true ∧
      ∃ (data : List FState) (log : List (ℚ × String)) (evs : List Event),
        simulate_flight cfgGood = RunResult.ok data log evs) := by
  constructor
  · exact ⟨by norm_num, C4_amended_error_free_runs.1 [((0 : ℚ), (5 : ℚ))] 3 (by norm_num)⟩
  · exact ⟨by norm_num [effMass, cfgGood], by norm_num [timesIncrB, cfgGood],
      C4_amended_error_free_runs.2 cfgGood (by norm_num [effMass, cfgGood])
        (by norm_num [timesIncrB, cfgGood])⟩

/-- C5 counterexample: the claim states that for a curve with at least
2 points and t strictly before the first control point's time
`interp_thrust` returns zero.  The code falsifies this: the final
`return thrust_curve[0][1]` returns the first point's thrust, here 12. -/
theorem C5_cex_before_first_point :
    interp_thrust [((1 : ℚ), (12 : ℚ)), (2, 0)] 0 = some 12 ∧
    interp_thrust [((1 : ℚ), (12 : ℚ)), (2, 0)] 0 ≠ some 0 := by
  have h : interp_thrust [((1 : ℚ), (12 : ℚ)), (2, 0)] 0 = some 12 := by
    norm_num [interp_thrust, scanSegs]
  exact ⟨h, by rw [h]; simp⟩

/-- C5 amended: for a thrust curve with strictly increasing times, at
least 2 control points, and t strictly before the first control point's
time, `interp_thrust` returns the first control point's thrust value
(not zero). -/
theorem C5_amended_returns_first_thrust {curve : List (ℚ × ℚ)} {t : ℚ}
    (h : timesIncrB curve = true) (hlen : 2 ≤ curve.length) (ht : t < curve.headI.1) :
    interp_thrust curve t = some curve.headI.2 :=
  interp_thrust_before_domain h hlen ht

/-- C5 witness: the amended statement instantiated at the curve
(1 s, 12 N), (2 s, 0 N) and t = 0. -/
theorem C5_amended_witness :
    timesIncrB [((1 : ℚ), (12 : ℚ)), (2, 0)] = true ∧
    2 ≤ ([((1 : ℚ), (12 : ℚ)), (2, 0)] : List (ℚ × ℚ)).length ∧
    (0 : ℚ) < ([((1 : ℚ), (12 : ℚ)), (2, 0)] : List (ℚ × ℚ)).headI.1 ∧
    interp_thrust [((1 : ℚ), (12 : ℚ)), (2, 0)] 0 = some 12 := by
  refine ⟨by norm_num [timesIncrB], by norm_num, by norm_num [List.headI], ?_⟩
  have := @C5_amended_returns_first_thrust [((1 : ℚ), (12 : ℚ)), (2, 0)] 0
    (by norm_num [timesIncrB]) (by norm_num) (by norm_num [List.headI])
  simpa [List.headI] using this

/-- C6: for every configuration with non-zero effective mass and a
thrust curve with strictly increasing times, `simulate_flight`
terminates normally via the 300 s cutoff: the run returns a sample list
of exactly 6001 entries (one per 0.05 s step, so at most 6001 steps are
ever performed) and its final sample's time exceeds 300 s, showing the
timeout is a defined termination path and not an error. -/
theorem C6_timeout_termination {cfg : MissionConfig} (hm : effMass cfg ≠ 0)
    (hcv : timesIncrB cfg.thrust_curve = true) :
    ∃ (data : List FState) (log : List (ℚ × String)) (evs : List Event),
      simulate_flight cfg = RunResult.ok data log evs ∧
      data.length = 6001 ∧
      (∃ s, data.get? 6000 = some s ∧ 300 < s.time) := by
  obtain ⟨c6, rev6, hc6, hrev6, hok, hlen⟩ := run_ok_of_good hm hcv
  obtain ⟨-, hget⟩ := simulate_flight_data_get hok
  refine ⟨rev6.reverse, c6.log, c6.events, hok, hlen, ?_⟩
  have hg := hget 6000 (by omega)
  rw [hc6] at hg
  have ht : c6.t = ((6001 : ℕ) : ℚ) * 0.05 := iterState_t 6001 c6 hc6
  refine ⟨sampleOf c6, hg, ?_⟩
  show (300 : ℚ) < c6.t
  rw [ht]
  norm_num

/-- C6 witness: the bound instantiated at the section-8 configuration. -/
theorem C6_witness :
    effMass cfgGood ≠ 0 ∧ timesIncrB cfgGood.thrust_curve = true ∧
    ∃ (data : List FState) (log : List (ℚ × String)) (evs : List Event),
      simulate_flight cfgGood = RunResult.ok data log evs ∧
      data.length = 6001 ∧
      (∃ s, data.get? 6000 = some s ∧ 300 < s.time) :=
  ⟨by norm_num [effMass, cfgGood], by norm_num [timesIncrB, cfgGood],
    C6_timeout_termination (by norm_num [effMass, cfgGood])
      (by norm_num [timesIncrB, cfgGood])⟩

/-- C7: in every call of the event evaluator, an event fires iff it has
not yet fired, its fire time is at most the current simulation time,
and its condition holds (`firesB`); condition evaluation is a logical
AND over the present constraint keys with unrecognized keys ignored and
the empty condition vacuously true (`condPass`); firing permanently
sets the `_triggered` flag, and evaluating again at the same state
fires nothing and changes nothing (so no event fires more than once). -/
theorem C7_event_firing_semantics (evs : List Event) (st : FState) :
    (run_events evs st).1
        = (evs.filter (fun e => firesB e st)).map (fun e => { e with triggered := true }) ∧
    (run_events evs st).2
        = evs.map (fun e => if firesB e st then { e with triggered := true } else e) ∧
    (∀ conds : List (String × ℚ),
      check_conditions conds st = conds.all (fun p => condPass p.1 p.2 st)) ∧
    (run_events (run_events evs st).2 st).1 = [] ∧
    (run_events (run_events evs st).2 st).2 = (run_events evs st).2 :=
  ⟨run_events_fst st evs, run_events_snd st evs, check_conditions_all st,
    (run_events_idem st evs).1, (run_events_idem st evs).2⟩

/-- C8: for a thrust curve with strictly increasing times,
`interp_thrust` returns the linear interpolation on every segment
spanned by consecutive control points, returns 0 beyond the last
control point's time, and in particular returns T/2 at B/2 for a
2-point curve (0,T)-(B,0). -/
theorem C8_piecewise_linear_interp {curve : List (ℚ × ℚ)} (h : timesIncrB curve = true) :
    (∀ (pre : List (ℚ × ℚ)) (p q : ℚ × ℚ) (suf : List (ℚ × ℚ)) (t : ℚ),
      curve = pre ++ p :: q :: suf → p.1 ≤ t → t ≤ q.1 →
      interp_thrust curve t = some (p.2 + (q.2 - p.2) * (t - p.1) / (q.1 - p.1))) ∧
    (∀ t : ℚ, (curve.getLastD (0, 0)).1 < t → interp_thrust curve t = some 0) ∧
    (∀ T B : ℚ, 0 < B → interp_thrust [(0, T), (B, 0)] (B / 2) = some (T / 2)) := by
  refine ⟨?_, ?_, ?_⟩
  · intro pre p q suf t hc hpt htq
    subst hc
    exact interp_thrust_seg h hpt htq
  · intro t ht
    exact interp_thrust_after_burnout h ht
  · intro T B hB
    have hincr : timesIncrB [((0 : ℚ), T), (B, 0)] = true := by
      simp [timesIncrB, hB]
    have hseg := @interp_thrust_seg [] ((0 : ℚ), T) (B, 0) [] (B / 2)
      (by simpa using hincr) (by linarith) (by linarith)
    rw [List.nil_append] at hseg
    rw [hseg]
    congr 1
    have hB0 : B ≠ 0 := ne_of_gt hB
    field_simp
    ring

/-- C8 witness: the curve (0 s, 12 N)-(1.6 s, 0 N) is strictly
increasing in time and its midpoint lookup at t = 0.8 s yields 6 N. -/
theorem C8_witness :
    timesIncrB [((0 : ℚ), (12 : ℚ)), (8 / 5, 0)] = true ∧
    interp_thrust [((0 : ℚ), (12 : ℚ)), (8 / 5, 0)] (4 / 5) = some 6 := by
  have hincr : timesIncrB [((0 : ℚ), (12 : ℚ)), (8 / 5, 0)] = true := by
    norm_num [timesIncrB]
  have hmid := (C8_piecewise_linear_interp hincr).2.2 12 (8 / 5) (by norm_num)
  norm_num at hmid
  exact ⟨hincr, hmid⟩

/-- C9: every run of `simulate_flight` that returns produces a
non-empty sample sequence whose time fields are exactly the progression
0.05, 0.10, 0.15, ... (sample i has time (i+1)·0.05, so the sequence is
strictly increasing and no sample is recorded at time 0). -/
theorem C9_sample_times {cfg : MissionConfig} {data : List FState}
    {log : List (ℚ × String)} {evs : List Event}
    (h : simulate_flight cfg = RunResult.ok data log evs) :
    data ≠ [] ∧
    (∀ (i : ℕ) (s : FState), data.get? i = some s → s.time = ((i : ℚ) + 1) * 0.05) ∧
    (∀ (i j : ℕ) (si sj : FState), i < j →
      data.get? i = some si → data.get? j = some sj → si.time < sj.time) := by
  obtain ⟨hlen6, hget⟩ := simulate_flight_data_get h
  have htime : ∀ (i : ℕ) (s : FState), data.get? i = some s →
      s.time = ((i : ℚ) + 1) * 0.05 := by
    intro i s hs
    have hig : i < 6001 := by
      by_contra hge
      have hnone : data.get? i = none := List.get?_eq_none.mpr (by rw [hlen6]; omega)
      rw [hnone] at hs
      cases hs
    have hg := hget i hig
    rw [hg] at hs
    rcases hc : iterState cfg (i + 1) with _ | c
    · rw [hc] at hs
      cases hs
    · rw [hc] at hs
      simp only [Option.map_some'] at hs
      injection hs with hs
      have ht := iterState_t (i + 1) c hc
      rw [← hs]
      show c.t = ((i : ℚ) + 1) * 0.05
      rw [ht]
      push_cast
      ring
  refine ⟨?_, htime, ?_⟩
  · intro hnil
    rw [hnil] at hlen6
    cases hlen6
  · intro i j si sj hij hsi hsj
    rw [htime i si hsi, htime j sj hsj]
    have hcast : ((i : ℚ) + 1) < ((j : ℚ) + 1) := by
      have : (i : ℚ) < (j : ℚ) := by exact_mod_cast hij
      linarith
    have h005 : (0 : ℚ) < 0.05 := by norm_num
    exact mul_lt_mul_of_pos_right hcast h005

/-- C9 witness: the sample-time property instantiated on the run of the
section-8 configuration. -/
theorem C9_witness :
    ∃ (data : List FState) (log : List (ℚ × String)) (evs : List Event),
      simulate_flight cfgGood = RunResult.ok data log evs ∧ data ≠ [] ∧
      (∀ (i : ℕ) (s : FState), data.get? i = some s → s.time = ((i : ℚ) + 1) * 0.05) := by
  obtain ⟨c6, rev6, -, -, hok, -⟩ :=
    @run_ok_of_good cfgGood (by norm_num [effMass, cfgGood])
      (by norm_num [timesIncrB, cfgGood])
  obtain ⟨h1, h2, -⟩ := C9_sample_times hok
  exact ⟨rev6.reverse, c6.log, c6.events, hok, h1, h2⟩

/-- C10: in a step whose current velocity is exactly 0, the computed
drag force is exactly 0 (drag is proportional to velocity squared), so
the sign convention −1 at v = 0 affects nothing and the recorded
acceleration is (thrust − mass·g)/mass. -/
theorem C10_zero_velocity_zero_drag {cfg : MissionConfig} {c : Core}
    (h0 : c.velocity = 0) (hm : effMass cfg ≠ 0) {th : ℚ}
    (hth : interp_thrust cfg.thrust_curve c.t = some th) :
    dragOf cfg c.velocity = 0 ∧
    ∃ c2, stepCore cfg c = some c2 ∧
      c2.accel = (th - effMass cfg * GRAVITY) / effMass cfg := by
  constructor
  · rw [h0]
    simp [dragOf]
  · exact ⟨stepVal cfg c th, stepCore_eq hth hm, stepVal_accel h0 th⟩

/-- C10 witness: the zero-drag-at-zero-velocity property instantiated
at the initial (on-pad) state of the section-8 configuration, where the
thrust lookup yields 12 N. -/
theorem C10_witness :
    (initCore cfgGood).velocity = 0 ∧ effMass cfgGood ≠ 0 ∧
    interp_thrust cfgGood.thrust_curve (initCore cfgGood).t = some 12 ∧
    (dragOf cfgGood (initCore cfgGood).velocity = 0 ∧
      ∃ c2, stepCore cfgGood (initCore cfgGood) = some c2 ∧
        c2.accel = (12 - effMass cfgGood * GRAVITY) / effMass cfgGood) := by
  have hth : interp_thrust cfgGood.thrust_curve (initCore cfgGood).t = some 12 := by
    norm_num [interp_thrust, scanSegs, initCore, cfgGood]
  refine ⟨rfl, by norm_num [effMass, cfgGood], hth, ?_⟩
  exact C10_zero_velocity_zero_drag rfl (by norm_num [effMass, cfgGood]) hth

end RocketSim
